import Mathlib

/-!
Verification of the client-side aggregation layer of an admin dashboard for an
AI image-generation product.  The definitions below are a shallow embedding of
the aggregation code (`loadAnalytics`, `exportData`, the gallery and user
filters): timestamps are ISO-8601 strings, instants are integer milliseconds
since the Unix epoch (UTC), and the ECMAScript built-ins the code relies on
(`Date` parsing, `toISOString`, `startsWith`, `toLowerCase`, `includes`,
`Array.prototype.join`, stable `Array.prototype.sort`, plain-object
accumulators enumerated by `Object.entries`) are embedded as executable Lean
functions with the semantics the ECMAScript specification gives them on the
inputs the code produces.
-/

/-- Milliseconds per day, the constant `24 * 60 * 60 * 1000` used by the source. -/
def msPerDay : Int := 86400000

/-- Proleptic-Gregorian leap-year test, as used by ECMAScript `Date`. -/
def isLeapYear (y : Int) : Bool :=
  (y % 4 == 0 && y % 100 != 0) || (y % 400 == 0)

/-- Number of days in month `m` of year `y` (months are 1-based). -/
def daysInMonth (y m : Int) : Int :=
  if m = 2 then (if isLeapYear y then 29 else 28)
  else if m = 4 ∨ m = 6 ∨ m = 9 ∨ m = 11 then 30
  else 31

/-- Civil (year, month, day) of the day numbered `z0` counting from 1970-01-01 (UTC).
This is the standard era-based conversion used to realise the UTC field
computations of ECMAScript `Date`; note that `/` on `Int` rounds toward
negative infinity for the positive literal divisors used here. -/
def civilFromDays (z0 : Int) : Int × Int × Int :=
  let z := z0 + 719468
  let era := z / 146097
  let doe := z - era * 146097
  let yoe := (doe - doe / 1460 + doe / 36524 - doe / 146096) / 365
  let y := yoe + era * 400
  let doy := doe - (365 * yoe + yoe / 4 - yoe / 100)
  let mp := (5 * doy + 2) / 153
  let d := doy - (153 * mp + 2) / 5 + 1
  let m := mp + (if mp < 10 then 3 else -9)
  (y + (if m ≤ 2 then 1 else 0), m, d)

/-- Day number (counting from 1970-01-01, UTC) of the civil date `y0-m-d`.
Inverse of `civilFromDays` on valid dates. -/
def daysFromCivil (y0 m d : Int) : Int :=
  let y := y0 - (if m ≤ 2 then 1 else 0)
  let era := y / 400
  let yoe := y - era * 400
  let mp := m + (if 2 < m then -3 else 9)
  let doy := (153 * mp + 2) / 5 + d - 1
  let doe := yoe * 365 + yoe / 4 - yoe / 100 + doy
  era * 146097 + doe - 719468

/-- A natural number rendered in decimal, left-padded with zeros to width `w`. -/
def padNat (w : Nat) (n : Nat) : String :=
  String.mk (List.replicate (w - (Nat.repr n).length) '0') ++ Nat.repr n

/-- Two-digit field of `toISOString` output (months, days). -/
def pad2 (n : Int) : String := padNat 2 n.toNat

/-- Year field of `toISOString` output: four digits for years 0..9999 and the
expanded six-digit signed form outside that range, as ECMAScript specifies. -/
def yearStr (y : Int) : String :=
  if 0 ≤ y ∧ y ≤ 9999 then padNat 4 y.toNat
  else if y < 0 then "-" ++ padNat 6 (-y).toNat
  else "+" ++ padNat 6 y.toNat

/-- The `YYYY-MM-DD` rendering of the calendar day numbered `day`. -/
def dayDateStr (day : Int) : String :=
  let c := civilFromDays day
  yearStr c.1 ++ "-" ++ pad2 c.2.1 ++ "-" ++ pad2 c.2.2

/-- Embeds `date.toISOString().split('T')[0]` for a valid date at `ms`
milliseconds since the epoch: the `YYYY-MM-DD` part of the UTC ISO rendering. -/
def isoDatePart (ms : Int) : String := dayDateStr (ms / msPerDay)

/-- Embeds `date.toISOString().slice(0, 7)` for a valid date at `ms`:
the `YYYY-MM` part of the UTC ISO rendering. -/
def isoMonthPart (ms : Int) : String :=
  let c := civilFromDays (ms / msPerDay)
  yearStr c.1 ++ "-" ++ pad2 c.2.1

/-- Decimal value of an ASCII digit character. -/
def digitVal (c : Char) : Option Nat :=
  if c.isDigit then some (c.toNat - 48) else none

/-- Two ASCII digits as a number. -/
def num2 (a b : Char) : Option Nat := do
  pure ((← digitVal a) * 10 + (← digitVal b))

/-- Three ASCII digits as a number. -/
def num3 (a b c : Char) : Option Nat := do
  pure (((← digitVal a) * 10 + (← digitVal b)) * 10 + (← digitVal c))

/-- Four ASCII digits as a number. -/
def num4 (a b c d : Char) : Option Nat := do
  pure ((((← digitVal a) * 10 + (← digitVal b)) * 10 + (← digitVal c)) * 10 + (← digitVal d))

/-- Time-of-day (milliseconds) encoded by the part of an ISO string after the
date: empty (UTC midnight, the ECMAScript date-only form) or
`THH:MM:SS[.mmm]Z`. -/
def parseTimePart : List Char → Option Int
  | [] => some 0
  | 'T' :: h1 :: h2 :: ':' :: m1 :: m2 :: ':' :: s1 :: s2 :: rest => do
      let hh ← num2 h1 h2
      let mi ← num2 m1 m2
      let ss ← num2 s1 s2
      if hh ≤ 23 ∧ mi ≤ 59 ∧ ss ≤ 59 then
        match rest with
        | ['Z'] => some (((hh * 3600000 + mi * 60000 + ss * 1000 : Nat) : Int))
        | '.' :: a :: b :: c :: ['Z'] => do
            let f ← num3 a b c
            some (((hh * 3600000 + mi * 60000 + ss * 1000 + f : Nat) : Int))
        | _ => none
      else none
  | _ => none

/-- Embeds ECMAScript `Date` parsing (`new Date(string)` / `Date.parse`) for the
ISO-8601 UTC timestamp strings the record store produces: `YYYY-MM-DD` or
`YYYY-MM-DDTHH:MM:SS[.mmm]Z`, with calendar-valid fields.  The result is the
epoch-millisecond value; `none` models an Invalid Date (`NaN` time value),
which is what every other string yields. -/
def parseISO (s : String) : Option Int :=
  match s.data with
  | y1 :: y2 :: y3 :: y4 :: '-' :: m1 :: m2 :: '-' :: d1 :: d2 :: rest => do
      let y ← num4 y1 y2 y3 y4
      let mo ← num2 m1 m2
      let dy ← num2 d1 d2
      if 1 ≤ mo ∧ mo ≤ 12 ∧ 1 ≤ dy ∧ (dy : Int) ≤ daysInMonth y mo then
        let t ← parseTimePart rest
        some (daysFromCivil y mo dy * msPerDay + t)
      else none
  | _ => none

/-- Embeds ECMAScript `s.startsWith(p)`. -/
def jsStartsWith (s p : String) : Bool := p.data.isPrefixOf s.data

/-- Lexicographic character-code comparison of character lists ("is strictly
less"), the order underlying `localeCompare` on the ASCII keys compared here. -/
def listLtb : List Char → List Char → Bool
  | [], [] => false
  | [], _ :: _ => true
  | _ :: _, [] => false
  | a :: as, b :: bs =>
      if a.toNat < b.toNat then true
      else if b.toNat < a.toNat then false
      else listLtb as bs

/-- Embeds `a.localeCompare(b) < 0` on the ASCII `YYYY-MM` keys compared here:
strict lexicographic character-code order. -/
def strLtb (a b : String) : Bool := listLtb a.data b.data

/-- Embeds ECMAScript `s.toLowerCase()` (character-wise lowering). -/
def jsToLower (s : String) : String := String.mk (s.data.map Char.toLower)

/-- Embeds ECMAScript `s.includes(sub)`: `sub` occurs contiguously in `s`
(always true for the empty string). -/
def jsIncludes (s sub : String) : Bool :=
  (List.range (s.data.length + 1)).any fun i => sub.data.isPrefixOf (s.data.drop i)

/-- Embeds ECMAScript `Array.prototype.join(sep)`. -/
def jsJoin (sep : String) : List String → String
  | [] => ""
  | [x] => x
  | x :: y :: xs => x ++ sep ++ jsJoin sep (y :: xs)

/-- Embeds `new Set(l).size`: the number of distinct elements of `l`. -/
def setSize {α : Type} [DecidableEq α] (l : List α) : Nat := l.dedup.length

/-- Embeds `acc[k] = (acc[k] || 0) + 1` on a plain-object accumulator.  The
object's property table is modelled as an association list in
property-creation order; the order in which `Object.entries` enumerates it is
a separate step, `jsEntries` (array-index keys first in numeric order). -/
def bump (acc : List (String × Nat)) (k : String) : List (String × Nat) :=
  if acc.any (fun p => p.1 == k) then
    acc.map (fun p => if p.1 == k then (p.1, p.2 + 1) else p)
  else acc ++ [(k, 1)]

/-- Occurrence counts of the strings of `l`, keys in first-encounter order. -/
def countsOf (l : List String) : List (String × Nat) := l.foldl bump []

/-- Stable insertion step: `x` is placed before the first element `y` that the
comparator does not order strictly before `x`. -/
def insStable {α : Type} (bef : α → α → Bool) (x : α) : List α → List α
  | [] => [x]
  | y :: ys => if bef y x then y :: insStable bef x ys else x :: y :: ys

/-- Embeds ECMAScript `Array.prototype.sort(cmp)`, which is guaranteed stable:
`bef a b` holds when `cmp(a, b) < 0`, i.e. `a` is ordered strictly before `b`. -/
def sortStable {α : Type} (bef : α → α → Bool) : List α → List α
  | [] => []
  | x :: xs => insStable bef x (sortStable bef xs)

/-- A generated-image record as fetched from the store (`GeneratedImage`). -/
structure Image where
  id : String
  userId : String
  url : String
  prompt : String
  size : String
  quality : String
  createdAt : String
deriving Repr, DecidableEq

/-- A user row as fetched by `loadAnalytics` (`blink.db.users.list`); an absent
or empty `createdAt` is modelled by the empty string (both are falsy). -/
structure DbUser where
  id : String
  email : String
  createdAt : String
deriving Repr, DecidableEq

/-- A transformed user of the user-management page. -/
structure MgmtUser where
  id : String
  email : String
  displayName : Option String
  role : String
  createdAt : String
  imageCount : Nat
  status : String
deriving Repr, DecidableEq

/-- One per-day bucket of `dailyStats`. -/
structure DayStat where
  date : String
  users : Nat
  images : Nat
deriving Repr, DecidableEq

/-- Embeds `images.filter(img => new Date(img.createdAt) >= startDate)` with
`startDate = new Date(now.getTime() - daysBack * 24 * 60 * 60 * 1000)`.
A relational comparison on an Invalid Date is false in ECMAScript (`NaN`
compares false), which is the `none` branch. -/
def filteredImages (images : List Image) (now : Int) (daysBack : Nat) : List Image :=
  let startDate := now - (daysBack : Int) * msPerDay
  images.filter fun img =>
    match parseISO img.createdAt with
    | some t => decide (startDate ≤ t)
    | none => false

/-- Body of one iteration of the `dailyStats` loop: the bucket for the day `i`
days before `now`, over the window-filtered images `fi`. -/
def dayEntry (fi : List Image) (now : Int) (i : Nat) : DayStat :=
  let dateStr := isoDatePart (now - (i : Int) * msPerDay)
  let dayImages := fi.filter fun img => jsStartsWith img.createdAt dateStr
  { date := dateStr
    users := setSize (dayImages.map (fun img => img.userId))
    images := dayImages.length }

/-- Embeds the `dailyStats` computation: for `i = daysBack - 1` down to `0`,
push the bucket of the day `i` days before `now`. -/
def dailyStats (images : List Image) (now : Int) (daysBack : Nat) : List DayStat :=
  let fi := filteredImages images now daysBack
  ((List.range daysBack).reverse).map (fun i => dayEntry fi now i)

/-- Embeds the prompt grouping key
`img.prompt.slice(0, 50) + (img.prompt.length > 50 ? '...' : '')`. -/
def promptKey (p : String) : String :=
  if 50 < p.data.length then String.mk (p.data.take 50) ++ "..." else p

/-- Embeds the `promptCounts` reduce over the window-filtered images. -/
def promptCounts (images : List Image) (now : Int) (daysBack : Nat) : List (String × Nat) :=
  (filteredImages images now daysBack).foldl (fun acc img => bump acc (promptKey img.prompt)) []

/-- Comparator of the top-prompts sort `([, a], [, b]) => b - a`:
`a` strictly before `b` exactly when `b.2 < a.2`. -/
def befCount (a b : String × Nat) : Bool := decide (b.2 < a.2)

/-- Numeric value of a digit string, for ordering array-index keys. -/
def digitsToNat (l : List Char) : Nat := l.foldl (fun n c => n * 10 + (c.toNat - 48)) 0

/-- Does `s` name an array index in the ECMAScript sense: a canonical numeric
string (all digits, with no leading zero unless the string is exactly "0")
whose numeric value is below `2 ^ 32 - 1`.  Plain objects enumerate such keys
before all other string keys. -/
def isArrayIndex (s : String) : Bool :=
  match s.data with
  | [] => false
  | c :: cs =>
      (c :: cs).all Char.isDigit && (c != '0' || decide (cs = [])) &&
      decide (digitsToNat (c :: cs) < 4294967295)

/-- Embeds the enumeration order of `Object.entries` (ECMAScript
OrdinaryOwnPropertyKeys) over the property table `acc` (kept in creation
order): array-index keys first, in ascending numeric order, then all remaining
string keys in creation order. -/
def jsEntries (acc : List (String × Nat)) : List (String × Nat) :=
  sortStable (fun a b => decide (digitsToNat a.1.data < digitsToNat b.1.data))
      (acc.filter (fun p => isArrayIndex p.1)) ++
    acc.filter (fun p => !isArrayIndex p.1)

/-- Embeds `Object.entries(promptCounts).sort(([, a], [, b]) => b - a).slice(0, limit)`
(the source instantiates `limit = 10`): `Object.entries` enumerates the
accumulator in `jsEntries` order, and the sort is stable. -/
def topByFrequency (images : List Image) (now : Int) (daysBack : Nat) (limit : Nat) :
    List (String × Nat) :=
  (sortStable befCount (jsEntries (promptCounts images now daysBack))).take limit

/-- Embeds `new Date(user.createdAt || new Date()).toISOString().slice(0, 7)` up
to the application of `toISOString`: the UTC `YYYY-MM` key when the date is
valid, `none` when `new Date(user.createdAt)` is an Invalid Date (in which
case `toISOString` throws a RangeError).  `nowM` is the fresh wall-clock value
`new Date()` substituted when `user.createdAt` is falsy. -/
def monthKey (u : DbUser) (nowM : Int) : Option String :=
  if u.createdAt = "" then some (isoMonthPart nowM)
  else (parseISO u.createdAt).map isoMonthPart

/-- One step of the `monthlyUsers` reduce; `Except.error ()` models the
RangeError thrown by `toISOString()` on an Invalid Date. -/
def monthStep (nowM : Int) (acc : List (String × Nat)) (u : DbUser) :
    Except Unit (List (String × Nat)) :=
  match monthKey u nowM with
  | some k => Except.ok (bump acc k)
  | none => Except.error ()

/-- Embeds the `monthlyUsers` reduce of `loadAnalytics` over all users. -/
def monthlyUsers (users : List DbUser) (nowM : Int) : Except Unit (List (String × Nat)) :=
  List.foldlM (monthStep nowM) [] users

/-- Comparator of the month sort `([a], [b]) => a.localeCompare(b)`: on the
ASCII `YYYY-MM` keys built here, `localeCompare` orders lexicographically. -/
def befKey (a b : String × Nat) : Bool := strLtb a.1 b.1

/-- Embeds `Object.entries(monthlyUsers).sort(([a], [b]) => a.localeCompare(b)).slice(-6)`:
the months present, sorted ascending, restricted to the last six. -/
def userGrowthKeys (users : List DbUser) (nowM : Int) : Except Unit (List (String × Nat)) :=
  (monthlyUsers users nowM).map fun mu =>
    let sorted := sortStable befKey mu
    sorted.drop (sorted.length - 6)

/-- Short month names of the `en-US` locale. -/
def monthName (m : Int) : String :=
  if m = 1 then "Jan" else if m = 2 then "Feb" else if m = 3 then "Mar"
  else if m = 4 then "Apr" else if m = 5 then "May" else if m = 6 then "Jun"
  else if m = 7 then "Jul" else if m = 8 then "Aug" else if m = 9 then "Sep"
  else if m = 10 then "Oct" else if m = 11 then "Nov" else if m = 12 then "Dec"
  else ""

/-- Embeds
`new Date(month + '-01').toLocaleDateString('en-US', { month: 'short', year: 'numeric' })`
on a UTC host. -/
def monthLabel (month : String) : String :=
  match parseISO (month ++ "-01") with
  | some t =>
      let c := civilFromDays (t / msPerDay)
      monthName c.2.1 ++ " " ++ toString c.1
  | none => "Invalid Date"

/-- Embeds the `userGrowth` computation of `loadAnalytics` end to end. -/
def userGrowth (users : List DbUser) (nowM : Int) : Except Unit (List (String × Nat)) :=
  (userGrowthKeys users nowM).map (List.map fun p => (monthLabel p.1, p.2))

/-- Embeds the Analytics "Active Users" statistic
`new Set(data.dailyStats.flatMap(stat => Array(stat.users).fill(0))).size`. -/
def activeUsersStat (stats : List DayStat) : Nat :=
  setSize (stats.flatMap (fun s => List.replicate s.users (0 : Nat)))

/-- The number of distinct owning users among the window-filtered images. -/
def distinctUsersInWindow (images : List Image) (now : Int) (daysBack : Nat) : Nat :=
  setSize ((filteredImages images now daysBack).map (fun img => img.userId))

/-- Embeds the "Avg per Day" statistic
`Math.round(dailyStats.reduce((sum, stat) => sum + stat.images, 0) / dailyStats.length) || 0`.
On the empty list the division is `0 / 0 = NaN`, `Math.round(NaN)` is `NaN`,
and `NaN || 0` evaluates to `0`: that is the zero-length branch.  Otherwise
`Math.round(x)` is `floor(x + 1/2)`, computed exactly on rationals as
`(2 * sum + len) / (2 * len)`. -/
def avgPerDay (stats : List DayStat) : Nat :=
  let sum := (stats.map (fun s => s.images)).sum
  let len := stats.length
  if len = 0 then 0 else (2 * sum + len) / (2 * len)

/-- Embeds `exportData`'s
`[['Date','Users','Images'], ...dailyStats.map(s => [s.date, s.users, s.images])].map(row => row.join(',')).join('\n')`. -/
def exportCsv (stats : List DayStat) : String :=
  jsJoin "\n" ((["Date", "Users", "Images"] ::
    stats.map (fun s => [s.date, toString s.users, toString s.images])).map
      (fun row => jsJoin "," row))

/-- Concatenation of a list of strings (used to state the CSV shape). -/
def concatStr : List String → String
  | [] => ""
  | x :: xs => x ++ concatStr xs

/-- Embeds the Gallery `filteredImages` predicate: case-insensitive prompt
search combined with the size and quality dropdown filters. -/
def filterGallery (images : List Image) (searchQuery sizeFilter qualityFilter : String) :
    List Image :=
  images.filter fun image =>
    (jsIncludes (jsToLower image.prompt) (jsToLower searchQuery)) &&
    (sizeFilter == "all" || image.size == sizeFilter) &&
    (qualityFilter == "all" || image.quality == qualityFilter)

/-- Embeds the UserManagement `filteredUsers` predicate: case-insensitive
search over email and (optional) display name. -/
def filteredUsers (users : List MgmtUser) (searchQuery : String) : List MgmtUser :=
  users.filter fun u =>
    jsIncludes (jsToLower u.email) (jsToLower searchQuery) ||
    (match u.displayName with
     | some d => jsIncludes (jsToLower d) (jsToLower searchQuery)
     | none => false)

/-- Specification-side restatement of the user-growth aggregate, written from
the spec's words for comparison with `userGrowthKeys`: group the month keys,
keep only months with at least one record (the distinct keys present), order
them chronologically, keep the last six, and report each month's record
count. -/
def growthSpecKeys (months : List String) : List (String × Nat) :=
  let ks := sortStable strLtb months.dedup
  (ks.drop (ks.length - 6)).map (fun k => (k, months.count k))

/-- Value associated to key `k` in an association list (`0` when absent). -/
def lookupVal (acc : List (String × Nat)) (k : String) : Nat :=
  match acc.find? (fun p => p.1 == k) with
  | some p => p.2
  | none => 0

/-- Images of the spec's three-day CSV example: two images by user `a` on
2024-01-01 and one by user `b` on 2024-01-03. -/
def c5images : List Image :=
  [⟨"i1", "a", "u1", "sunset", "512x512", "standard", "2024-01-01T10:00:00Z"⟩,
   ⟨"i2", "a", "u2", "forest", "512x512", "standard", "2024-01-01T12:00:00Z"⟩,
   ⟨"i3", "b", "u3", "ocean", "512x512", "standard", "2024-01-03T09:00:00Z"⟩]

/-- The injected "now" of the CSV example: 2024-01-03T12:00:00Z. -/
def c5now : Int := daysFromCivil 2024 1 3 * msPerDay + 43200000

/-- An image whose timestamp string is not parseable as a date. -/
def c2bad : Image := ⟨"i9", "z", "u9", "p", "512x512", "standard", "not-a-date"⟩

/-- A user row whose timestamp string is not parseable as a date. -/
def c2badUser : DbUser := ⟨"u9", "u9@example.com", "not-a-date"⟩

/-- The injected "now" of the window counterexample: 2024-01-10T00:00:00Z. -/
def c3now : Int := daysFromCivil 2024 1 10 * msPerDay

/-- An image time-stamped one day after `c3now`. -/
def c3img : Image := ⟨"i3", "a", "u", "p", "512x512", "standard", "2024-01-11T00:00:00Z"⟩

/-- The injected "now" of the prompt tie-order counterexample. -/
def c4now : Int := daysFromCivil 2024 1 10 * msPerDay

/-- An in-window image whose prompt is the array-index string "42". -/
def c4img1 : Image := ⟨"i4", "a", "u", "42", "512x512", "standard", "2024-01-09T01:00:00Z"⟩

/-- A later in-window image whose prompt is the array-index string "7". -/
def c4img2 : Image := ⟨"i5", "b", "u", "7", "512x512", "standard", "2024-01-09T02:00:00Z"⟩

/-- The injected "now" of the active-users examples: 2024-01-10T00:00:00Z. -/
def c7now : Int := daysFromCivil 2024 1 10 * msPerDay

/-- A single in-window image by user `a`. -/
def c7img : Image := ⟨"i7", "a", "u", "p", "512x512", "standard", "2024-01-09T05:00:00Z"⟩

/-- A second in-window image by a different user `b`. -/
def c7img2 : Image := ⟨"i8", "b", "u", "p2", "512x512", "standard", "2024-01-09T06:00:00Z"⟩

/-- A user created in January 2024. -/
def c6u1 : DbUser := ⟨"u1", "a@x", "2024-01-05T00:00:00Z"⟩

/-- A user created in March 2024. -/
def c6u2 : DbUser := ⟨"u2", "b@x", "2024-03-05T00:00:00Z"⟩

theorem jsToLower_empty : jsToLower "" = "" := rfl

theorem jsIncludes_empty (s : String) : jsIncludes s "" = true := by
  have h0 : 0 ∈ List.range (s.data.length + 1) := by
    simp
  simp only [jsIncludes, List.any_eq_true]
  refine ⟨0, h0, ?_⟩
  cases s.data.drop 0 <;> rfl

/-- C8: with the empty search query and every dropdown filter set to `all`,
both the gallery filter and the user-management filter return their input
collection unchanged, in content and order. -/
theorem filterByText_empty_c8 (images : List Image) (users : List MgmtUser) :
    filterGallery images "" "all" "all" = images ∧ filteredUsers users "" = users := by
  constructor
  · apply List.filter_eq_self.mpr
    intro img _
    simp [jsToLower_empty, jsIncludes_empty]
  · apply List.filter_eq_self.mpr
    intro u _
    simp [jsToLower_empty, jsIncludes_empty]

/-- C9: the mean images-per-day statistic is the number `0`, not an error,
when the daily-stats sequence is empty (zero denominator), in particular for
the `dailyStats` of an empty window. -/
theorem avgPerDay_empty_c9 (images : List Image) (now : Int) :
    avgPerDay [] = 0 ∧ dailyStats images now 0 = [] ∧ avgPerDay (dailyStats images now 0) = 0 :=
  ⟨rfl, rfl, rfl⟩

theorem strAppend_empty (s : String) : s ++ "" = s := by
  cases s with
  | mk d =>
    show String.mk (d ++ []) = String.mk d
    rw [List.append_nil]

theorem strAppend_assoc (a b c : String) : a ++ b ++ c = a ++ (b ++ c) := by
  cases a with
  | mk x =>
    cases b with
    | mk y =>
      cases c with
      | mk z =>
        show String.mk (x ++ y ++ z) = String.mk (x ++ (y ++ z))
        rw [List.append_assoc]

theorem jsJoin_cons (sep : String) :
    ∀ (rest : List String) (h : String),
      jsJoin sep (h :: rest) = h ++ concatStr (rest.map (fun r => sep ++ r)) := by
  intro rest
  induction rest with
  | nil =>
    intro h
    show h = h ++ concatStr []
    rw [show concatStr [] = "" from rfl, strAppend_empty]
  | cons x xs ih =>
    intro h
    show h ++ sep ++ jsJoin sep (x :: xs) = h ++ concatStr ((x :: xs).map (fun r => sep ++ r))
    rw [ih x]
    show h ++ sep ++ (x ++ concatStr (xs.map (fun r => sep ++ r))) =
      h ++ (sep ++ x ++ concatStr (xs.map (fun r => sep ++ r)))
    rw [strAppend_assoc h sep, strAppend_assoc sep x]

theorem jsJoin3 (a b c : String) : jsJoin "," [a, b, c] = a ++ "," ++ b ++ "," ++ c := by
  show a ++ "," ++ (b ++ "," ++ c) = a ++ "," ++ b ++ "," ++ c
  rw [strAppend_assoc (a ++ ",") b, strAppend_assoc (a ++ ","), strAppend_assoc b]

/-- C5: `exportCsv` produces exactly the header `Date,Users,Images` followed by
one comma-separated `date,users,images` row per bucket in order, rows
separated by a newline with no trailing blank line; on the three fixed example
days with image counts 2, 0, 1 and distinct-user counts 1, 0, 1 the output is
bit-exact. -/
theorem exportCsv_c5 :
    (∀ stats : List DayStat, exportCsv stats =
      "Date,Users,Images" ++ concatStr (stats.map (fun s =>
        "\n" ++ (s.date ++ "," ++ toString s.users ++ "," ++ toString s.images)))) ∧
    exportCsv (dailyStats c5images c5now 3) =
      "Date,Users,Images\n2024-01-01,1,2\n2024-01-02,0,0\n2024-01-03,1,1" := by
  constructor
  · intro stats
    show jsJoin "\n" ((["Date", "Users", "Images"] ::
      stats.map (fun s => [s.date, toString s.users, toString s.images])).map
        (fun row => jsJoin "," row)) = _
    rw [List.map_cons, jsJoin_cons, List.map_map]
    have hh : jsJoin "," ["Date", "Users", "Images"] = "Date,Users,Images" := by decide
    rw [hh, List.map_map]
    have hrows : List.map (((fun r => "\n" ++ r) ∘ fun row => jsJoin "," row) ∘
        fun s : DayStat => [s.date, toString s.users, toString s.images]) stats =
        List.map (fun s : DayStat =>
          "\n" ++ (s.date ++ "," ++ toString s.users ++ "," ++ toString s.images)) stats := by
      apply List.map_congr_left
      intro s _
      show "\n" ++ jsJoin "," [s.date, toString s.users, toString s.images] = _
      rw [jsJoin3]
    rw [hrows]
  · decide

/-- C2: a record whose timestamp string is not parseable contributes to no
daily bucket (removing it leaves `dailyStats` unchanged, with no exception);
but the monthly-growth reduce applies `toISOString()` to the Invalid Date and
throws (modelled by `Except.error`) instead of skipping the record. -/
theorem timestamps_c2 (pre post : List Image) (bad : Image) (now : Int) (d : Nat)
    (h : parseISO bad.createdAt = none) :
    dailyStats (pre ++ bad :: post) now d = dailyStats (pre ++ post) now d ∧
    monthlyUsers [c2badUser] 0 = Except.error () := by
  constructor
  · have hf : filteredImages (pre ++ bad :: post) now d = filteredImages (pre ++ post) now d := by
      simp [filteredImages, List.filter_append, List.filter_cons, h]
    simp only [dailyStats, hf]
  · rfl

/-- Witness for C2 at a concrete unparseable record. -/
theorem timestamps_c2_witness :
    parseISO c2bad.createdAt = none ∧
    dailyStats (c5images ++ c2bad :: []) c5now 3 = dailyStats (c5images ++ []) c5now 3 :=
  ⟨by decide, (timestamps_c2 c5images [] c2bad c5now 3 (by decide)).1⟩

/-- C3 counterexample: a record time-stamped one day after the injected "now"
is returned by the window filter although its timestamp does not lie in
`[now - windowDays, now]`, so membership is not equivalent to lying in that
interval. -/
theorem filterByWindow_c3_cex :
    filteredImages [c3img] c3now 7 = [c3img] ∧
    parseISO c3img.createdAt = some (c3now + msPerDay) ∧ c3now < c3now + msPerDay :=
  ⟨by decide, by decide, by decide⟩

/-- C3 amended: the window filter returns exactly the subsequence of records
whose timestamp parses to a value at least `now - windowDays` in milliseconds;
the lower bound is inclusive and no upper bound is enforced. -/
theorem filterByWindow_c3_amended (images : List Image) (now : Int) (d : Nat) :
    List.Sublist (filteredImages images now d) images ∧
    ∀ img, img ∈ filteredImages images now d ↔
      img ∈ images ∧ ∃ t, parseISO img.createdAt = some t ∧ now - (d : Int) * msPerDay ≤ t := by
  constructor
  · exact List.filter_sublist _
  · intro img
    simp only [filteredImages, List.mem_filter]
    constructor
    · rintro ⟨hm, hp⟩
      refine ⟨hm, ?_⟩
      cases hpi : parseISO img.createdAt with
      | none => rw [hpi] at hp; exact absurd hp (by simp)
      | some t =>
        rw [hpi] at hp
        exact ⟨t, rfl, of_decide_eq_true hp⟩
    · rintro ⟨hm, t, ht, hle⟩
      refine ⟨hm, ?_⟩
      rw [ht]
      exact decide_eq_true hle

theorem dedup_all_zero :
    ∀ l : List Nat, (∀ x ∈ l, x = 0) → l = [] ∨ l.dedup = [0] := by
  intro l
  induction l with
  | nil => intro _; left; rfl
  | cons a t ih =>
    intro h
    right
    have ha : a = 0 := h a (List.mem_cons_self a t)
    have ht : ∀ x ∈ t, x = 0 := fun x hx => h x (List.mem_cons_of_mem a hx)
    rcases ih ht with h1 | h1
    · subst h1; subst ha; rfl
    · have hmem : a ∈ t := by
        rw [ha]
        exact List.mem_dedup.mp (by rw [h1]; exact List.mem_singleton.mpr rfl)
      rw [List.dedup_cons_of_mem hmem, h1]

theorem activeUsersStat_eq (stats : List DayStat) :
    activeUsersStat stats = if stats.any (fun s => decide (0 < s.users)) then 1 else 0 := by
  unfold activeUsersStat setSize
  have hz : ∀ x ∈ stats.flatMap (fun s => List.replicate s.users (0 : Nat)), x = 0 := by
    intro x hx
    rw [List.mem_flatMap] at hx
    obtain ⟨s, _, hx2⟩ := hx
    exact List.eq_of_mem_replicate hx2
  cases hany : stats.any (fun s => decide (0 < s.users)) with
  | true =>
    rw [if_pos rfl]
    have hne : stats.flatMap (fun s => List.replicate s.users (0 : Nat)) ≠ [] := by
      rw [List.any_eq_true] at hany
      obtain ⟨s, hs, hu⟩ := hany
      intro hnil
      rw [List.flatMap_eq_nil_iff] at hnil
      have h2 := hnil s hs
      rw [List.replicate_eq_nil_iff] at h2
      have hu2 : 0 < s.users := of_decide_eq_true hu
      omega
    rcases dedup_all_zero _ hz with h | h
    · exact absurd h hne
    · rw [h]; rfl
  | false =>
    rw [if_neg Bool.false_ne_true]
    have hnil : stats.flatMap (fun s => List.replicate s.users (0 : Nat)) = [] := by
      rw [List.flatMap_eq_nil_iff]
      intro s hs
      rw [List.any_eq_false] at hany
      have h3 := hany s hs
      simp only [decide_eq_true_eq] at h3
      rw [List.replicate_eq_nil_iff]
      omega
    rw [hnil]
    rfl

/-- C7 amended: the "Active Users" statistic is `1` when some daily bucket has
a nonzero distinct-user count and `0` otherwise; in particular it never
exceeds `1`, and it differs from the number of distinct users active in the
window whenever that number exceeds one. -/
theorem activeUsers_c7 (images : List Image) (now : Int) (d : Nat) :
    activeUsersStat (dailyStats images now d) =
      (if (dailyStats images now d).any (fun s => decide (0 < s.users)) then 1 else 0) ∧
    activeUsersStat (dailyStats images now d) ≤ 1 ∧
    (1 < distinctUsersInWindow images now d →
      activeUsersStat (dailyStats images now d) ≠ distinctUsersInWindow images now d) := by
  have h1 := activeUsersStat_eq (dailyStats images now d)
  have h2 : activeUsersStat (dailyStats images now d) ≤ 1 := by
    rw [h1]
    split <;> omega
  exact ⟨h1, h2, fun hgt => by omega⟩

/-- Witness for C7 at a two-user window. -/
theorem activeUsers_c7_witness :
    1 < distinctUsersInWindow [c7img, c7img2] c7now 7 ∧
    activeUsersStat (dailyStats [c7img, c7img2] c7now 7) ≠
      distinctUsersInWindow [c7img, c7img2] c7now 7 :=
  ⟨by decide, (activeUsers_c7 [c7img, c7img2] c7now 7).2.2 (by decide)⟩

/-- C7 counterexample: with exactly one distinct user active in the window the
statistic equals the number of distinct active users (both are `1`), refuting
"never equals the number of distinct users active in the window". -/
theorem activeUsers_c7_cex :
    activeUsersStat (dailyStats [c7img] c7now 7) = distinctUsersInWindow [c7img] c7now 7 ∧
    distinctUsersInWindow [c7img] c7now 7 = 1 :=
  ⟨by decide, by decide⟩

theorem day_shift (now : Int) (i : Nat) :
    (now - (i : Int) * msPerDay) / msPerDay = now / msPerDay - (i : Int) := by
  show (now - (i : Int) * 86400000) / 86400000 = now / 86400000 - (i : Int)
  omega

theorem range_rev_shift {α : Type} (g : Int → α) (base : Int) :
    ∀ d : Nat, ((List.range d).reverse).map (fun i : Nat => g (base - (i : Int))) =
      (List.range d).map (fun k : Nat => g (base - (d : Int) + 1 + (k : Int))) := by
  intro d
  induction d with
  | zero => rfl
  | succ n ih =>
    conv_lhs => rw [List.range_succ, List.reverse_append, List.reverse_singleton,
      List.singleton_append, List.map_cons, ih]
    rw [List.range_succ_eq_map, List.map_cons, List.map_map]
    congr 1
    · exact congrArg g (by push_cast; ring)
    · apply List.map_congr_left
      intro k _
      exact congrArg g (by push_cast [Function.comp, Nat.succ_eq_add_one]; ring)

/-- C1: for every image collection, injected "now" and non-negative window
width, `dailyStats` returns exactly `windowDays` buckets whose dates are the
renderings of `windowDays` consecutive calendar-day numbers ending at the day
of "now" — oldest to newest, no gaps, no duplicate days, with a bucket for
every day regardless of whether any record falls on it. -/
theorem bucketByDay_c1 (images : List Image) (now : Int) (d : Nat) :
    (dailyStats images now d).length = d ∧
    (dailyStats images now d).map DayStat.date =
      (List.range d).map (fun k : Nat => dayDateStr (now / msPerDay - (d : Int) + 1 + (k : Int))) := by
  constructor
  · simp [dailyStats]
  · show ((List.range d).reverse.map (fun i => dayEntry (filteredImages images now d) now i)).map
      DayStat.date = _
    rw [List.map_map]
    have hdate : ∀ i : Nat,
        (DayStat.date ∘ fun i => dayEntry (filteredImages images now d) now i) i =
        dayDateStr (now / msPerDay - (i : Int)) := by
      intro i
      show isoDatePart (now - (i : Int) * msPerDay) = _
      unfold isoDatePart
      rw [day_shift]
    rw [List.map_congr_left (fun i _ => hdate i)]
    exact range_rev_shift dayDateStr (now / msPerDay) d

theorem insStable_perm {α : Type} (bef : α → α → Bool) (x : α) :
    ∀ l : List α, List.Perm (insStable bef x l) (x :: l) := by
  intro l
  induction l with
  | nil => exact List.Perm.refl _
  | cons y ys ih =>
    simp only [insStable]
    split
    · exact (ih.cons y).trans (List.Perm.swap x y ys)
    · exact List.Perm.refl _

theorem sortStable_perm {α : Type} (bef : α → α → Bool) :
    ∀ l : List α, List.Perm (sortStable bef l) l := by
  intro l
  induction l with
  | nil => exact List.Perm.refl _
  | cons x xs ih => exact (insStable_perm bef x _).trans (ih.cons x)

theorem insStable_pairwise {α : Type} (bef : α → α → Bool)
    (hasym : ∀ a b, bef a b = true → bef b a = false)
    (htra : ∀ a b c, bef a c = true → bef a b = true ∨ bef b c = true) (x : α) :
    ∀ l : List α, List.Pairwise (fun a b => bef b a = false) l →
      List.Pairwise (fun a b => bef b a = false) (insStable bef x l) := by
  intro l
  induction l with
  | nil => intro _; exact List.pairwise_singleton _ x
  | cons y ys ih =>
    intro hp
    rcases List.pairwise_cons.mp hp with ⟨hy, hys⟩
    simp only [insStable]
    split_ifs with hb
    · apply List.pairwise_cons.mpr
      constructor
      · intro z hz
        rcases List.mem_cons.mp ((insStable_perm bef x ys).mem_iff.mp hz) with hzx | hz3
        · rw [hzx]; exact hasym y x hb
        · exact hy z hz3
      · exact ih hys
    · apply List.pairwise_cons.mpr
      have hbf : bef y x = false := by
        cases hyx : bef y x
        · rfl
        · exact absurd hyx hb
      constructor
      · intro z hz
        rcases List.mem_cons.mp hz with hzy | hz2
        · rw [hzy]; exact hbf
        · cases hzx : bef z x
          · rfl
          · rcases htra z y x hzx with h1 | h1
            · rw [hy z hz2] at h1; exact absurd h1 (by simp)
            · rw [hbf] at h1; exact absurd h1 (by simp)
      · exact hp

theorem sortStable_pairwise {α : Type} (bef : α → α → Bool)
    (hasym : ∀ a b, bef a b = true → bef b a = false)
    (htra : ∀ a b c, bef a c = true → bef a b = true ∨ bef b c = true) :
    ∀ l : List α, List.Pairwise (fun a b => bef b a = false) (sortStable bef l) := by
  intro l
  induction l with
  | nil => exact List.Pairwise.nil
  | cons x xs ih => exact insStable_pairwise bef hasym htra x _ ih

theorem insStable_filter_of_neg {α : Type} (bef : α → α → Bool) (P : α → Bool) (x : α)
    (hx : P x = false) :
    ∀ l : List α, List.filter P (insStable bef x l) = List.filter P l := by
  intro l
  induction l with
  | nil => simp [insStable, List.filter_cons, hx]
  | cons y ys ih =>
    simp only [insStable]
    split_ifs with hb
    · rw [List.filter_cons, ih, ← List.filter_cons]
    · simp [List.filter_cons, hx]

theorem insStable_filter_of_pos {α : Type} (bef : α → α → Bool) (P : α → Bool)
    (hP : ∀ a b, P a = true → P b = true → bef a b = false) (x : α) (hx : P x = true) :
    ∀ l : List α, List.filter P (insStable bef x l) = x :: List.filter P l := by
  intro l
  induction l with
  | nil => simp [insStable, List.filter_cons, hx]
  | cons y ys ih =>
    simp only [insStable]
    split_ifs with hb
    · have hy : P y = false := by
        cases hPy : P y
        · rfl
        · rw [hP y x hPy hx] at hb; exact absurd hb (by simp)
      rw [List.filter_cons_of_neg (by simp [hy]), ih, List.filter_cons_of_neg (by simp [hy])]
    · rw [List.filter_cons_of_pos (by simp [hx])]

theorem sortStable_filter {α : Type} (bef : α → α → Bool) (P : α → Bool)
    (hP : ∀ a b, P a = true → P b = true → bef a b = false) :
    ∀ l : List α, List.filter P (sortStable bef l) = List.filter P l := by
  intro l
  induction l with
  | nil => rfl
  | cons x xs ih =>
    show List.filter P (insStable bef x (sortStable bef xs)) = _
    cases hx : P x
    · rw [insStable_filter_of_neg bef P x hx, ih, List.filter_cons_of_neg (by simp [hx])]
    · rw [insStable_filter_of_pos bef P hP x hx, ih, List.filter_cons_of_pos (by simp [hx])]

theorem bump_mem_keys (acc : List (String × Nat)) (k : String) :
    (acc.any fun p => p.1 == k) = true ↔ k ∈ acc.map Prod.fst := by
  rw [List.any_eq_true]
  constructor
  · rintro ⟨p, hp, he⟩
    exact List.mem_map.mpr ⟨p, hp, by simpa using he⟩
  · intro hk
    rcases List.mem_map.mp hk with ⟨p, hp, he⟩
    exact ⟨p, hp, by simp [he]⟩

theorem bump_fst (acc : List (String × Nat)) (k : String) :
    (bump acc k).map Prod.fst =
      if k ∈ acc.map Prod.fst then acc.map Prod.fst else acc.map Prod.fst ++ [k] := by
  unfold bump
  cases ha : (acc.any fun p => p.1 == k) with
  | true =>
    have hk : k ∈ acc.map Prod.fst := (bump_mem_keys acc k).mp ha
    rw [if_pos rfl, if_pos hk, List.map_map]
    apply List.map_congr_left
    intro p _
    show ((if p.1 == k then (p.1, p.2 + 1) else p) : String × Nat).1 = p.1
    split_ifs <;> rfl
  | false =>
    have hk : k ∉ acc.map Prod.fst := fun h =>
      absurd ((bump_mem_keys acc k).mpr h) (by simp [ha])
    rw [if_neg Bool.false_ne_true, if_neg hk, List.map_append]
    rfl

theorem lookupVal_map_bump_self (k : String) :
    ∀ acc : List (String × Nat), k ∈ acc.map Prod.fst →
      lookupVal (acc.map (fun p => if p.1 == k then (p.1, p.2 + 1) else p)) k =
        lookupVal acc k + 1 := by
  intro acc
  induction acc with
  | nil => intro h; exact absurd h (by simp)
  | cons q t ih =>
    intro hk
    rw [List.map_cons]
    cases hq : (q.1 == k) with
    | true =>
      rw [if_pos rfl]
      unfold lookupVal
      have h1 : List.find? (fun p => p.1 == k)
          ((q.1, q.2 + 1) :: t.map (fun p => if p.1 == k then (p.1, p.2 + 1) else p)) =
          some (q.1, q.2 + 1) := List.find?_cons_of_pos _ hq
      have h2 : List.find? (fun p => p.1 == k) (q :: t) = some q := List.find?_cons_of_pos _ hq
      rw [h1, h2]
    | false =>
      rw [if_neg (by simp)]
      have hne : q.1 ≠ k := by
        intro he
        rw [he] at hq
        simp at hq
      have hk1 : k ∈ q.1 :: t.map Prod.fst := by
        rw [List.map_cons] at hk
        exact hk
      have hk2 : k ∈ t.map Prod.fst := by
        rcases List.mem_cons.mp hk1 with h | h
        · exact absurd h.symm hne
        · exact h
      unfold lookupVal
      have h1 : List.find? (fun p => p.1 == k)
          (q :: t.map (fun p => if p.1 == k then (p.1, p.2 + 1) else p)) =
          List.find? (fun p => p.1 == k) (t.map (fun p => if p.1 == k then (p.1, p.2 + 1) else p)) :=
        List.find?_cons_of_neg _ (by simp [hq])
      have h2 : List.find? (fun p => p.1 == k) (q :: t) = List.find? (fun p => p.1 == k) t :=
        List.find?_cons_of_neg _ (by simp [hq])
      rw [h1, h2]
      exact ih hk2

theorem lookupVal_map_bump_other (k q0 : String) (hne : q0 ≠ k) :
    ∀ acc : List (String × Nat),
      lookupVal (acc.map (fun p => if p.1 == k then (p.1, p.2 + 1) else p)) q0 =
        lookupVal acc q0 := by
  intro acc
  induction acc with
  | nil => rfl
  | cons q t ih =>
    rw [List.map_cons]
    cases hq : (q.1 == q0) with
    | true =>
      have hqk : (q.1 == k) = false := by
        rw [beq_iff_eq] at hq
        simp [hq, hne]
      rw [if_neg (by simp [hqk])]
      unfold lookupVal
      have h1 : List.find? (fun p => p.1 == q0)
          (q :: t.map (fun p => if p.1 == k then (p.1, p.2 + 1) else p)) = some q :=
        List.find?_cons_of_pos _ hq
      have h2 : List.find? (fun p => p.1 == q0) (q :: t) = some q :=
        List.find?_cons_of_pos _ hq
      rw [h1, h2]
    | false =>
      cases hqk : (q.1 == k) with
      | true =>
        rw [if_pos rfl]
        unfold lookupVal
        have h1 : List.find? (fun p => p.1 == q0)
            ((q.1, q.2 + 1) :: t.map (fun p => if p.1 == k then (p.1, p.2 + 1) else p)) =
            List.find? (fun p => p.1 == q0)
              (t.map (fun p => if p.1 == k then (p.1, p.2 + 1) else p)) :=
          List.find?_cons_of_neg _ (by simp [hq])
        have h2 : List.find? (fun p => p.1 == q0) (q :: t) =
            List.find? (fun p => p.1 == q0) t := List.find?_cons_of_neg _ (by simp [hq])
        rw [h1, h2]
        exact ih
      | false =>
        rw [if_neg (by simp)]
        unfold lookupVal
        have h1 : List.find? (fun p => p.1 == q0)
            (q :: t.map (fun p => if p.1 == k then (p.1, p.2 + 1) else p)) =
            List.find? (fun p => p.1 == q0)
              (t.map (fun p => if p.1 == k then (p.1, p.2 + 1) else p)) :=
          List.find?_cons_of_neg _ (by simp [hq])
        have h2 : List.find? (fun p => p.1 == q0) (q :: t) =
            List.find? (fun p => p.1 == q0) t := List.find?_cons_of_neg _ (by simp [hq])
        rw [h1, h2]
        exact ih

theorem lookupVal_append_one (k q0 : String) :
    ∀ acc : List (String × Nat), k ∉ acc.map Prod.fst →
      lookupVal (acc ++ [(k, 1)]) q0 = lookupVal acc q0 + (if q0 = k then 1 else 0) := by
  intro acc
  induction acc with
  | nil =>
    intro _
    rw [List.nil_append]
    by_cases hqk : q0 = k
    · rw [if_pos hqk]
      unfold lookupVal
      have h1 : List.find? (fun p => p.1 == q0) [(k, 1)] = some (k, 1) :=
        List.find?_cons_of_pos _ (by simp [hqk])
      rw [h1]
      rfl
    · rw [if_neg hqk]
      unfold lookupVal
      have h1 : List.find? (fun p => p.1 == q0) [(k, 1)] = List.find? (fun p => p.1 == q0) [] :=
        List.find?_cons_of_neg _ (by simp [Ne.symm hqk])
      rw [h1]
      rfl
  | cons q t ih =>
    intro hk
    have hk2 : k ∉ t.map Prod.fst := by
      intro h
      exact hk (by rw [List.map_cons]; exact List.mem_cons_of_mem _ h)
    rw [List.cons_append]
    cases hq : (q.1 == q0) with
    | true =>
      unfold lookupVal
      have h1 : List.find? (fun p => p.1 == q0) (q :: (t ++ [(k, 1)])) = some q :=
        List.find?_cons_of_pos _ hq
      have h2 : List.find? (fun p => p.1 == q0) (q :: t) = some q :=
        List.find?_cons_of_pos _ hq
      rw [h1, h2]
      have hqk : q0 ≠ k := by
        intro he
        apply hk
        rw [List.map_cons]
        rw [beq_iff_eq] at hq
        rw [← he, ← hq]
        exact List.mem_cons_self _ _
      rw [if_neg hqk]
      rfl
    | false =>
      unfold lookupVal
      have h1 : List.find? (fun p => p.1 == q0) (q :: (t ++ [(k, 1)])) =
          List.find? (fun p => p.1 == q0) (t ++ [(k, 1)]) :=
        List.find?_cons_of_neg _ (by simp [hq])
      have h2 : List.find? (fun p => p.1 == q0) (q :: t) =
          List.find? (fun p => p.1 == q0) t := List.find?_cons_of_neg _ (by simp [hq])
      rw [h1, h2]
      exact ih hk2

theorem lookupVal_bump (acc : List (String × Nat)) (k q0 : String) :
    lookupVal (bump acc k) q0 = lookupVal acc q0 + (if q0 = k then 1 else 0) := by
  unfold bump
  cases ha : (acc.any fun p => p.1 == k) with
  | true =>
    rw [if_pos rfl]
    have hk : k ∈ acc.map Prod.fst := (bump_mem_keys acc k).mp ha
    by_cases hq : q0 = k
    · rw [if_pos hq, hq]
      exact lookupVal_map_bump_self k acc hk
    · rw [if_neg hq]
      have := lookupVal_map_bump_other k q0 hq acc
      omega
  | false =>
    rw [if_neg Bool.false_ne_true]
    have hk : k ∉ acc.map Prod.fst := fun h =>
      absurd ((bump_mem_keys acc k).mpr h) (by simp [ha])
    exact lookupVal_append_one k q0 acc hk

theorem lookupVal_foldl_bump :
    ∀ (l : List String) (acc : List (String × Nat)) (k : String),
      lookupVal (List.foldl bump acc l) k = lookupVal acc k + l.count k := by
  intro l
  induction l with
  | nil => intro acc k; simp
  | cons x t ih =>
    intro acc k
    show lookupVal (List.foldl bump (bump acc x) t) k = _
    rw [ih, lookupVal_bump, List.count_cons]
    have hiff : (if k = x then 1 else 0) = (if (x == k) = true then 1 else 0) := by
      by_cases h : k = x
      · simp [h]
      · have hxk : ¬ x = k := fun he => h he.symm
        simp [h, hxk]
    omega

theorem keys_foldl_bump_nodup :
    ∀ (l : List String) (acc : List (String × Nat)),
      (acc.map Prod.fst).Nodup → ((List.foldl bump acc l).map Prod.fst).Nodup := by
  intro l
  induction l with
  | nil => intro acc h; exact h
  | cons x t ih =>
    intro acc h
    apply ih
    rw [bump_fst]
    split_ifs with hk
    · exact h
    · simp [List.nodup_append, h, hk]

theorem keys_foldl_bump_mem :
    ∀ (l : List String) (acc : List (String × Nat)) (k : String),
      k ∈ (List.foldl bump acc l).map Prod.fst ↔ k ∈ acc.map Prod.fst ∨ k ∈ l := by
  intro l
  induction l with
  | nil => intro acc k; simp
  | cons x t ih =>
    intro acc k
    show k ∈ (List.foldl bump (bump acc x) t).map Prod.fst ↔ _
    rw [ih, bump_fst]
    split_ifs with hx
    · constructor
      · rintro (h | h)
        · exact Or.inl h
        · exact Or.inr (List.mem_cons_of_mem x h)
      · rintro (h | h)
        · exact Or.inl h
        · rcases List.mem_cons.mp h with hkx | hkt
          · rw [hkx]; exact Or.inl hx
          · exact Or.inr hkt
    · rw [List.mem_append, List.mem_singleton]
      constructor
      · rintro ((h | h) | h)
        · exact Or.inl h
        · rw [h]; exact Or.inr (List.mem_cons_self x t)
        · exact Or.inr (List.mem_cons_of_mem x h)
      · rintro (h | h)
        · exact Or.inl (Or.inl h)
        · rcases List.mem_cons.mp h with hkx | hkt
          · exact Or.inl (Or.inr hkx)
          · exact Or.inr hkt

theorem assoc_eq_map_keys :
    ∀ acc : List (String × Nat), (acc.map Prod.fst).Nodup →
      acc = (acc.map Prod.fst).map (fun k => (k, lookupVal acc k)) := by
  intro acc
  induction acc with
  | nil => intro _; rfl
  | cons p t ih =>
    intro h
    rw [List.map_cons] at h
    rcases List.nodup_cons.mp h with ⟨hp, ht⟩
    rw [List.map_cons, List.map_cons]
    have hhead : (p.1, lookupVal (p :: t) p.1) = p := by
      unfold lookupVal
      have h1 : List.find? (fun q => q.1 == p.1) (p :: t) = some p :=
        List.find?_cons_of_pos _ (by simp)
      rw [h1]
    rw [hhead]
    congr 1
    have htail : ∀ k ∈ t.map Prod.fst,
        (fun k => (k, lookupVal (p :: t) k)) k = (fun k => (k, lookupVal t k)) k := by
      intro k hk
      have hne : p.1 ≠ k := fun he => hp (he ▸ hk)
      show (k, lookupVal (p :: t) k) = (k, lookupVal t k)
      unfold lookupVal
      have h1 : List.find? (fun q => q.1 == k) (p :: t) = List.find? (fun q => q.1 == k) t :=
        List.find?_cons_of_neg _ (by simp [hne])
      rw [h1]
    rw [List.map_congr_left htail]
    exact ih ht

theorem befCount_asym : ∀ a b : String × Nat, befCount a b = true → befCount b a = false := by
  intro a b h
  simp only [befCount, decide_eq_true_eq] at h
  simp only [befCount, decide_eq_false_iff_not]
  omega

theorem befCount_tra : ∀ a b c : String × Nat,
    befCount a c = true → befCount a b = true ∨ befCount b c = true := by
  intro a b c h
  simp only [befCount, decide_eq_true_eq] at h
  simp only [befCount, decide_eq_true_eq]
  omega

theorem promptCounts_eq (images : List Image) (now : Int) (d : Nat) :
    promptCounts images now d =
      countsOf ((filteredImages images now d).map (fun img => promptKey img.prompt)) := by
  unfold promptCounts countsOf
  rw [List.foldl_map]

theorem jsEntries_perm (acc : List (String × Nat)) : List.Perm (jsEntries acc) acc := by
  unfold jsEntries
  refine List.Perm.trans (List.Perm.append_right _ (sortStable_perm _ _)) ?_
  exact List.filter_append_perm _ acc

/-- C4 counterexample: two in-window records with the all-digit prompts "42"
then "7" (one occurrence each).  "42" is encountered first, yet the top list
reports `("7", 1)` before `("42", 1)`: `Object.entries` enumerates array-index
keys in ascending numeric order ahead of insertion order, and the stable sort
keeps that order among the equal counts, so ties are not broken by
first-encountered order. -/
theorem topByFrequency_c4_cex :
    (filteredImages [c4img1, c4img2] c4now 7).map (fun img => promptKey img.prompt) =
      ["42", "7"] ∧
    topByFrequency [c4img1, c4img2] c4now 7 10 = [("7", 1), ("42", 1)] :=
  ⟨by decide, by decide⟩

/-- C4 amended: `topByFrequency` returns at most `limit` entries (exactly
`min limit n` where `n` is the number of distinct prompt keys of the filtered
records) with non-increasing counts; ties between equal counts follow the
`Object.entries` enumeration order — array-index keys first in ascending
numeric order, then the remaining keys in first-encountered order: for each
count value, the returned entries of that count form a prefix of the
enumeration-ordered group list. -/
theorem topByFrequency_c4_amended (images : List Image) (now : Int) (d limit : Nat) :
    (topByFrequency images now d limit).length = min limit (promptCounts images now d).length ∧
    ((promptCounts images now d).map Prod.fst).Nodup ∧
    (∀ k, k ∈ (promptCounts images now d).map Prod.fst ↔
      k ∈ (filteredImages images now d).map (fun img => promptKey img.prompt)) ∧
    (promptCounts images now d).length =
      setSize ((filteredImages images now d).map (fun img => promptKey img.prompt)) ∧
    List.Pairwise (fun a b : String × Nat => b.2 ≤ a.2) (topByFrequency images now d limit) ∧
    (∀ c : Nat, ∃ rest,
      (topByFrequency images now d limit).filter (fun p => p.2 == c) ++ rest =
        (jsEntries (promptCounts images now d)).filter (fun p => p.2 == c)) := by
  have hnodup : ((promptCounts images now d).map Prod.fst).Nodup := by
    rw [promptCounts_eq]
    exact keys_foldl_bump_nodup _ [] (by simp)
  have hmem : ∀ k, k ∈ (promptCounts images now d).map Prod.fst ↔
      k ∈ (filteredImages images now d).map (fun img => promptKey img.prompt) := by
    intro k
    rw [promptCounts_eq]
    unfold countsOf
    rw [keys_foldl_bump_mem]
    simp
  refine ⟨?_, hnodup, hmem, ?_, ?_, ?_⟩
  · show ((sortStable befCount (jsEntries (promptCounts images now d))).take limit).length = _
    rw [List.length_take, (sortStable_perm befCount _).length_eq,
      (jsEntries_perm (promptCounts images now d)).length_eq]
  · have hperm : List.Perm ((promptCounts images now d).map Prod.fst)
        ((filteredImages images now d).map (fun img => promptKey img.prompt)).dedup := by
      rw [List.perm_ext_iff_of_nodup hnodup (List.nodup_dedup _)]
      intro k
      rw [List.mem_dedup]
      exact hmem k
    unfold setSize
    rw [← hperm.length_eq, List.length_map]
  · have hsorted := sortStable_pairwise befCount befCount_asym befCount_tra
      (jsEntries (promptCounts images now d))
    have htake : List.Pairwise (fun a b : String × Nat => befCount b a = false)
        (topByFrequency images now d limit) :=
      List.Pairwise.sublist (List.take_sublist _ _) hsorted
    refine htake.imp ?_
    intro a b h
    simp only [befCount, decide_eq_false_iff_not] at h
    omega
  · intro c
    refine ⟨(List.drop limit (sortStable befCount
      (jsEntries (promptCounts images now d)))).filter (fun p => p.2 == c), ?_⟩
    show ((sortStable befCount (jsEntries (promptCounts images now d))).take limit).filter _ ++
      _ = _
    rw [← List.filter_append, List.take_append_drop]
    apply sortStable_filter
    intro a b ha hb
    simp only [beq_iff_eq] at ha hb
    simp only [befCount, decide_eq_false_iff_not]
    omega

theorem listLtb_asym : ∀ x y : List Char, listLtb x y = true → listLtb y x = false := by
  intro x
  induction x with
  | nil =>
    intro y h
    cases y with
    | nil => simp [listLtb] at h
    | cons b bs => rfl
  | cons a as ih =>
    intro y h
    cases y with
    | nil => simp [listLtb] at h
    | cons b bs =>
      show (if b.toNat < a.toNat then true
        else if a.toNat < b.toNat then false else listLtb bs as) = false
      have h0 : (if a.toNat < b.toNat then true
          else if b.toNat < a.toNat then false else listLtb as bs) = true := h
      by_cases h1 : a.toNat < b.toNat
      · rw [if_neg (by omega), if_pos h1]
      · rw [if_neg h1] at h0
        by_cases h2 : b.toNat < a.toNat
        · rw [if_pos h2] at h0
          exact absurd h0 Bool.false_ne_true
        · rw [if_neg h2] at h0
          rw [if_neg h2, if_neg h1]
          exact ih bs h0

theorem listLtb_conn : ∀ x y : List Char,
    listLtb x y = false → listLtb y x = false → x = y := by
  intro x
  induction x with
  | nil =>
    intro y h1 h2
    cases y with
    | nil => rfl
    | cons b bs => simp [listLtb] at h1
  | cons a as ih =>
    intro y h1 h2
    cases y with
    | nil => simp [listLtb] at h2
    | cons b bs =>
      have h1' : (if a.toNat < b.toNat then true
          else if b.toNat < a.toNat then false else listLtb as bs) = false := h1
      have h2' : (if b.toNat < a.toNat then true
          else if a.toNat < b.toNat then false else listLtb bs as) = false := h2
      by_cases hab : a.toNat < b.toNat
      · rw [if_pos hab] at h1'
        exact absurd h1' (by simp)
      · by_cases hba : b.toNat < a.toNat
        · rw [if_pos hba] at h2'
          exact absurd h2' (by simp)
        · rw [if_neg hab, if_neg hba] at h1'
          rw [if_neg hba, if_neg hab] at h2'
          have hn : a.toNat = b.toNat := by omega
          have hch : a = b := by
            apply Char.eq_of_val_eq
            apply UInt32.eq_of_toBitVec_eq
            exact BitVec.eq_of_toNat_eq hn
          rw [hch, ih bs h1' h2']

theorem listLtb_tra_or : ∀ x y z : List Char,
    listLtb x z = true → listLtb x y = true ∨ listLtb y z = true := by
  intro x
  induction x with
  | nil =>
    intro y z h
    cases z with
    | nil => simp [listLtb] at h
    | cons c cs =>
      cases y with
      | nil => exact Or.inr rfl
      | cons b bs => exact Or.inl rfl
  | cons a as ih =>
    intro y z h
    cases z with
    | nil => simp [listLtb] at h
    | cons c cs =>
      cases y with
      | nil => exact Or.inr rfl
      | cons b bs =>
        have h0 : (if a.toNat < c.toNat then true
            else if c.toNat < a.toNat then false else listLtb as cs) = true := h
        by_cases hac : a.toNat < c.toNat
        · by_cases hab : a.toNat < b.toNat
          · refine Or.inl ?_
            show (if a.toNat < b.toNat then true
              else if b.toNat < a.toNat then false else listLtb as bs) = true
            rw [if_pos hab]
          · refine Or.inr ?_
            show (if b.toNat < c.toNat then true
              else if c.toNat < b.toNat then false else listLtb bs cs) = true
            rw [if_pos (by omega)]
        · rw [if_neg hac] at h0
          by_cases hca : c.toNat < a.toNat
          · rw [if_pos hca] at h0
            exact absurd h0 Bool.false_ne_true
          · rw [if_neg hca] at h0
            by_cases hab : a.toNat < b.toNat
            · refine Or.inl ?_
              show (if a.toNat < b.toNat then true
                else if b.toNat < a.toNat then false else listLtb as bs) = true
              rw [if_pos hab]
            · by_cases hba : b.toNat < a.toNat
              · refine Or.inr ?_
                show (if b.toNat < c.toNat then true
                  else if c.toNat < b.toNat then false else listLtb bs cs) = true
                rw [if_pos (by omega)]
              · rcases ih bs cs h0 with h2 | h2
                · refine Or.inl ?_
                  show (if a.toNat < b.toNat then true
                    else if b.toNat < a.toNat then false else listLtb as bs) = true
                  rw [if_neg hab, if_neg hba]
                  exact h2
                · refine Or.inr ?_
                  show (if b.toNat < c.toNat then true
                    else if c.toNat < b.toNat then false else listLtb bs cs) = true
                  rw [if_neg (by omega), if_neg (by omega)]
                  exact h2

theorem strLtb_asym : ∀ a b : String, strLtb a b = true → strLtb b a = false := by
  intro a b h
  exact listLtb_asym a.data b.data h

theorem strLtb_conn : ∀ a b : String, strLtb a b = false → strLtb b a = false → a = b := by
  intro a b h1 h2
  exact String.ext (listLtb_conn a.data b.data h1 h2)

theorem strLtb_tra_or : ∀ a b c : String,
    strLtb a c = true → strLtb a b = true ∨ strLtb b c = true := by
  intro a b c h
  exact listLtb_tra_or a.data b.data c.data h

theorem befKey_asym : ∀ a b : String × Nat, befKey a b = true → befKey b a = false := by
  intro a b h
  exact strLtb_asym a.1 b.1 h

theorem befKey_tra : ∀ a b c : String × Nat,
    befKey a c = true → befKey a b = true ∨ befKey b c = true := by
  intro a b c h
  exact strLtb_tra_or a.1 b.1 c.1 h

theorem monthlyUsers_ok_eq (nowM : Int) :
    ∀ (users : List DbUser) (acc mu : List (String × Nat)),
      List.foldlM (monthStep nowM) acc users = Except.ok mu →
      mu = List.foldl bump acc (users.filterMap (fun u => monthKey u nowM)) := by
  intro users
  induction users with
  | nil =>
    intro acc mu h
    rw [List.foldlM_nil] at h
    cases h
    rfl
  | cons u us ih =>
    intro acc mu h
    rw [List.foldlM_cons] at h
    cases hk : monthKey u nowM with
    | none =>
      rw [show monthStep nowM acc u = Except.error () by unfold monthStep; rw [hk]] at h
      cases h
    | some k =>
      rw [show monthStep nowM acc u = Except.ok (bump acc k) by unfold monthStep; rw [hk]] at h
      have h2 : List.foldlM (monthStep nowM) (bump acc k) us = Except.ok mu := h
      have h3 : List.filterMap (fun u => monthKey u nowM) (u :: us) =
          k :: List.filterMap (fun u => monthKey u nowM) us := List.filterMap_cons_some hk
      rw [h3, List.foldl_cons]
      exact ih (bump acc k) mu h2

theorem sorted_counts_eq (months : List String) (mu : List (String × Nat))
    (hmu : mu = List.foldl bump [] months) :
    sortStable befKey mu =
      (sortStable strLtb months.dedup).map (fun k => (k, months.count k)) := by
  have hnodup : (mu.map Prod.fst).Nodup := by
    rw [hmu]
    exact keys_foldl_bump_nodup months [] (by simp)
  have hmem : ∀ k, k ∈ mu.map Prod.fst ↔ k ∈ months := by
    intro k
    rw [hmu, keys_foldl_bump_mem]
    simp
  have hval : ∀ k, lookupVal mu k = months.count k := by
    intro k
    rw [hmu, lookupVal_foldl_bump]
    rw [show lookupVal [] k = 0 from rfl]
    omega
  have hmu2 : mu = (mu.map Prod.fst).map (fun k => (k, months.count k)) := by
    refine (assoc_eq_map_keys mu hnodup).trans ?_
    apply List.map_congr_left
    intro k _
    rw [hval k]
  have hperm1 : List.Perm (sortStable befKey mu) mu := sortStable_perm _ _
  have hkeysperm : List.Perm (mu.map Prod.fst) months.dedup := by
    rw [List.perm_ext_iff_of_nodup hnodup (List.nodup_dedup _)]
    intro k
    rw [List.mem_dedup]
    exact hmem k
  have hpermR : List.Perm (sortStable befKey mu)
      ((sortStable strLtb months.dedup).map (fun k => (k, months.count k))) := by
    have h5 : List.Perm ((mu.map Prod.fst).map (fun k => (k, months.count k)))
        (months.dedup.map (fun k => (k, months.count k))) := hkeysperm.map _
    rw [← hmu2] at h5
    exact hperm1.trans (h5.trans ((sortStable_perm _ months.dedup).map _).symm)
  have hsortedL : List.Pairwise (fun a b : String × Nat => strLtb a.1 b.1 = true)
      (sortStable befKey mu) := by
    have h1 := sortStable_pairwise befKey befKey_asym befKey_tra mu
    have h2 : ((sortStable befKey mu).map Prod.fst).Nodup :=
      (hperm1.map Prod.fst).nodup_iff.mpr hnodup
    have h3 : List.Pairwise (fun a b : String × Nat => a.1 ≠ b.1) (sortStable befKey mu) :=
      List.pairwise_map.mp h2
    refine (h1.and h3).imp ?_
    rintro a b ⟨h4, h5⟩
    cases h6 : strLtb a.1 b.1
    · exact absurd (strLtb_conn a.1 b.1 h6 h4) h5
    · rfl
  have hsortedR : List.Pairwise (fun a b : String × Nat => strLtb a.1 b.1 = true)
      ((sortStable strLtb months.dedup).map (fun k => (k, months.count k))) := by
    have h1 := sortStable_pairwise strLtb strLtb_asym strLtb_tra_or months.dedup
    have h2 : (sortStable strLtb months.dedup).Nodup :=
      (sortStable_perm _ months.dedup).nodup_iff.mpr (List.nodup_dedup _)
    have h3 : List.Pairwise (fun a b : String => strLtb a b = true)
        (sortStable strLtb months.dedup) := by
      refine (h1.and h2).imp ?_
      rintro a b ⟨h4, h5⟩
      cases h6 : strLtb a b
      · exact absurd (strLtb_conn a b h6 h4) h5
      · rfl
    rw [List.pairwise_map]
    exact h3
  haveI : IsAntisymm (String × Nat) (fun a b => strLtb a.1 b.1 = true) :=
    ⟨fun a b h1 h2 => absurd h2 (by rw [strLtb_asym a.1 b.1 h1]; exact Bool.false_ne_true)⟩
  exact List.eq_of_perm_of_sorted hpermR hsortedL hsortedR

/-- C6: whenever the monthly reduce succeeds (all user timestamps well-formed),
`userGrowth` groups users by UTC `YYYY-MM` month key and returns, in
chronological order, exactly the last six distinct months present in the data
with each month's record count — months with zero records are omitted, since
only months of actual records appear. -/
theorem userGrowth_c6 (users : List DbUser) (nowM : Int) (mu : List (String × Nat))
    (h : monthlyUsers users nowM = Except.ok mu) :
    userGrowthKeys users nowM =
      Except.ok (growthSpecKeys (users.filterMap (fun u => monthKey u nowM))) ∧
    userGrowth users nowM =
      Except.ok ((growthSpecKeys (users.filterMap (fun u => monthKey u nowM))).map
        (fun p => (monthLabel p.1, p.2))) := by
  have hmu : mu = List.foldl bump [] (users.filterMap (fun u => monthKey u nowM)) :=
    monthlyUsers_ok_eq nowM users [] mu h
  have hs := sorted_counts_eq (users.filterMap (fun u => monthKey u nowM)) mu hmu
  have hkeys : userGrowthKeys users nowM =
      Except.ok (growthSpecKeys (users.filterMap (fun u => monthKey u nowM))) := by
    unfold userGrowthKeys growthSpecKeys
    rw [h]
    show Except.ok _ = Except.ok _
    congr 1
    show (sortStable befKey mu).drop ((sortStable befKey mu).length - 6) = _
    rw [hs, List.length_map, ← List.map_drop]
  refine ⟨hkeys, ?_⟩
  unfold userGrowth
  rw [hkeys]
  rfl

/-- Witness for C6: users created only in 2024-01 and 2024-03 yield exactly the
two corresponding entries, omitting February. -/
theorem userGrowth_c6_witness :
    userGrowthKeys [c6u1, c6u2] 0 = Except.ok [("2024-01", 1), ("2024-03", 1)] := by
  have h := (userGrowth_c6 [c6u1, c6u2] 0 [("2024-01", 1), ("2024-03", 1)] (by rfl)).1
  have h2 : growthSpecKeys (List.filterMap (fun u => monthKey u 0) [c6u1, c6u2]) =
      [("2024-01", 1), ("2024-03", 1)] := by decide
  rw [h, h2]
